import Mathlib

/-!
Formal model of the incremental information-content estimator in
`src/entropy.py`, together with theorems about its behaviour.

The tokenizer and the GPT-2 model are external collaborators: the core
receives a token-id sequence (`List ℕ`, the output of `tokenizer(text)`)
and consults a probability oracle (`q_prob`) plus a cached background
distribution (`p_bg_dist`).  Both external capabilities, together with the
tokenizer's `decode` used only in error messages, are bundled in `Model`.

Probabilities and bit counts are modelled as real numbers; Python's
`float` arithmetic is idealized as real arithmetic.  Python exceptions
are modelled by an explicit error type: the `ValueError` raised at the
`p_next <= 0` guard, the `ZeroDivisionError` raised by a division whose
denominator is zero, and the `ValueError` ("math domain error") raised by
`math.log2` on a non-positive argument.
-/

namespace Entropy

/-- The Python exceptions the program can raise. -/
inductive PyError where
  | invalidProbability (decoded : String)
  | zeroDivisionError
  | mathDomainError
  deriving DecidableEq

/-- The external collaborators of the core, as in `src/entropy.py`:
`q_prob token_id history_ids` is the probability the model's softmaxed
logits assign to `token_id` after `history_ids` (lines 21-31);
`p_bg_dist` is the cached background distribution computed once from the
BOS context (lines 34-40); `decode` is the tokenizer's single-token
decoder used in error messages. -/
structure Model where
  q_prob : ℕ → List ℕ → ℝ
  p_bg_dist : ℕ → ℝ
  decode : ℕ → String

/-- The indices visited by `for i in range(1, len(ids))` (line 55). -/
def scoredIndices (ids : List ℕ) : List ℕ :=
  List.range' 1 (ids.length - 1)

/-- Bits contributed by scored position `i`: `-log2(q_prob(ids[i], ids[:i]))`
(lines 57-65). -/
noncomputable def stepBits (M : Model) (ids : List ℕ) (i : ℕ) : ℝ :=
  -(Real.logb 2 (M.q_prob (ids.getD i 0) (ids.take i)))

/-- The loop body of `info_content` (lines 55-65): walk the scored indices,
query the oracle with history `ids[:i]`, raise `ValueError` if the returned
probability is non-positive, otherwise accumulate `-log2(p_next)`. -/
noncomputable def infoLoop (M : Model) (ids : List ℕ) : List ℕ → ℝ → Except PyError ℝ
  | [], acc => .ok acc
  | i :: rest, acc =>
    if M.q_prob (ids.getD i 0) (ids.take i) ≤ 0 then
      .error (.invalidProbability (M.decode (ids.getD i 0)))
    else
      infoLoop M ids rest (acc + -(Real.logb 2 (M.q_prob (ids.getD i 0) (ids.take i))))

/-- `info_content` on an already-tokenized sequence (lines 48-68): run the
scoring loop from `total_bits = 0.0`, then return
`(total_bits, total_bits / (len(ids) - 1))`; the division raises
`ZeroDivisionError` when `len(ids) = 1`.  The denominator is the Python
`int` `len(ids) - 1`, hence modelled in `ℤ`. -/
noncomputable def info_content (M : Model) (ids : List ℕ) : Except PyError (ℝ × ℝ) :=
  match infoLoop M ids (scoredIndices ids) 0 with
  | .error e => .error e
  | .ok total =>
    if ((ids.length : ℤ) - 1) = 0 then .error .zeroDivisionError
    else .ok (total, total / (((ids.length : ℤ) - 1 : ℤ) : ℝ))

/-- The loop body of `info_content_background_corrected` (lines 77-83):
as `infoLoop`, but after the `p_next <= 0` guard it evaluates
`math.log2(p_background)` unguarded, which raises a math domain error
whenever the cached background probability is non-positive; otherwise it
accumulates `-log2(p_next) + log2(p_background)`. -/
noncomputable def bgLoop (M : Model) (ids : List ℕ) : List ℕ → ℝ → Except PyError ℝ
  | [], acc => .ok acc
  | i :: rest, acc =>
    if M.q_prob (ids.getD i 0) (ids.take i) ≤ 0 then
      .error (.invalidProbability (M.decode (ids.getD i 0)))
    else if M.p_bg_dist (ids.getD i 0) ≤ 0 then
      .error .mathDomainError
    else
      bgLoop M ids rest
        (acc + (-(Real.logb 2 (M.q_prob (ids.getD i 0) (ids.take i)))
                + Real.logb 2 (M.p_bg_dist (ids.getD i 0))))

/-- `info_content_background_corrected` on a tokenized sequence
(lines 73-84). -/
noncomputable def info_content_background_corrected (M : Model) (ids : List ℕ) :
    Except PyError (ℝ × ℝ) :=
  match bgLoop M ids (scoredIndices ids) 0 with
  | .error e => .error e
  | .ok total =>
    if ((ids.length : ℤ) - 1) = 0 then .error .zeroDivisionError
    else .ok (total, total / (((ids.length : ℤ) - 1 : ℤ) : ℝ))

/-- The oracle queries the scoring loop performs, in order, as
(history, token) pairs: one query per visited index, stopping after the
first index whose probability fails the guard (lines 57-63).  Both loops
perform the same queries. -/
noncomputable def oracleQueries (M : Model) (ids : List ℕ) : List ℕ → List (List ℕ × ℕ)
  | [] => []
  | i :: rest =>
    (ids.take i, ids.getD i 0) ::
      (if M.q_prob (ids.getD i 0) (ids.take i) ≤ 0 then []
       else oracleQueries M ids rest)

/-- The reporting layer's reconstruction of the token count
(line 111): `total_bits / per_token_bits`, a Python float division that
raises `ZeroDivisionError` when `per_token_bits` is zero. -/
noncomputable def reconstructedTokenCount (total_bits bits_per_token : ℝ) :
    Except PyError ℝ :=
  if bits_per_token = 0 then .error .zeroDivisionError
  else .ok (total_bits / bits_per_token)

/-- Stub oracle assigning probability 1/2 to every token in every context. -/
noncomputable def Mhalf : Model :=
  { q_prob := fun _ _ => 1/2, p_bg_dist := fun _ => 1/2, decode := fun t => toString t }

/-- Stub oracle assigning probability 1 to every token (zero surprisal). -/
noncomputable def Mone : Model :=
  { q_prob := fun _ _ => 1, p_bg_dist := fun _ => 1, decode := fun t => toString t }

/-- Malfunctioning stub oracle assigning probability 0 to every token. -/
noncomputable def Mzero : Model :=
  { q_prob := fun _ _ => 0, p_bg_dist := fun _ => 1/2, decode := fun t => toString t }

/-- Stub with a healthy conditional oracle but a background distribution
assigning probability 0 to every token. -/
noncomputable def Mbgzero : Model :=
  { q_prob := fun _ _ => 1/2, p_bg_dist := fun _ => 0, decode := fun t => toString t }

/-- Deterministic stub oracle returning the uniform distribution over a
vocabulary of size 4: every probability is 1/4. -/
noncomputable def Muniform4 : Model :=
  { q_prob := fun _ _ => 1/4, p_bg_dist := fun _ => 1/4, decode := fun t => toString t }

/-! ### Helper lemmas -/

lemma logb_two_half : Real.logb 2 (1/2 : ℝ) = -1 := by
  rw [one_div, Real.logb_inv, Real.logb_self_eq_one one_lt_two]

lemma logb_two_quarter : Real.logb 2 (1/4 : ℝ) = -2 := by
  have h : (1/4 : ℝ) = ((2:ℝ) ^ (2:ℕ))⁻¹ := by norm_num
  rw [h, Real.logb_inv, Real.logb_pow, Real.logb_self_eq_one one_lt_two]
  norm_num

lemma denom_cast (ids : List ℕ) :
    (((ids.length : ℤ) - 1 : ℤ) : ℝ) = (ids.length : ℝ) - 1 := by
  push_cast
  ring

/-- When every queried probability is positive, the scoring loop succeeds and
returns the accumulator plus the sum of per-position surprisals. -/
lemma infoLoop_ok_of_pos (M : Model) (ids : List ℕ) :
    ∀ (l : List ℕ) (acc : ℝ),
      (∀ i ∈ l, 0 < M.q_prob (ids.getD i 0) (ids.take i)) →
      infoLoop M ids l acc = .ok (acc + (l.map (stepBits M ids)).sum) := by
  intro l
  induction l with
  | nil =>
    intro acc _
    simp [infoLoop]
  | cons i rest ih =>
    intro acc h
    have hi : 0 < M.q_prob (ids.getD i 0) (ids.take i) := h i (List.mem_cons_self i rest)
    rw [infoLoop, if_neg (not_le.mpr hi),
      ih _ (fun j hj => h j (List.mem_cons_of_mem i hj))]
    simp only [List.map_cons, List.sum_cons, stepBits]
    congr 1
    ring

/-- When every queried probability is positive, the loop queries every visited
index, pairing each index with its prefix history. -/
lemma oracleQueries_of_pos (M : Model) (ids : List ℕ) :
    ∀ l : List ℕ,
      (∀ i ∈ l, 0 < M.q_prob (ids.getD i 0) (ids.take i)) →
      oracleQueries M ids l = l.map (fun i => (ids.take i, ids.getD i 0)) := by
  intro l
  induction l with
  | nil =>
    intro _
    simp [oracleQueries]
  | cons i rest ih =>
    intro h
    have hi : 0 < M.q_prob (ids.getD i 0) (ids.take i) := h i (List.mem_cons_self i rest)
    rw [oracleQueries, if_neg (not_le.mpr hi),
      ih (fun j hj => h j (List.mem_cons_of_mem i hj)), List.map_cons]

/-- Unpacking a successful `info_content` run: the loop succeeded with the
first component, the denominator was non-zero, and the second component is
the quotient. -/
lemma info_content_ok_elim (M : Model) (ids : List ℕ) (tb bpt : ℝ)
    (h : info_content M ids = .ok (tb, bpt)) :
    infoLoop M ids (scoredIndices ids) 0 = .ok tb ∧ ((ids.length : ℤ) - 1) ≠ 0 ∧
      bpt = tb / (((ids.length : ℤ) - 1 : ℤ) : ℝ) := by
  rw [info_content] at h
  rcases heq : infoLoop M ids (scoredIndices ids) 0 with e | total
  · rw [heq] at h
    cases h
  · rw [heq] at h
    dsimp only at h
    by_cases hz : ((ids.length : ℤ) - 1) = 0
    · rw [if_pos hz] at h
      cases h
    · rw [if_neg hz] at h
      have h2 := Except.ok.inj h
      have h3 : total = tb := congrArg Prod.fst h2
      have h4 : total / (((ids.length : ℤ) - 1 : ℤ) : ℝ) = bpt := congrArg Prod.snd h2
      subst h3
      exact ⟨rfl, hz, h4.symm⟩

/-- Unpacking a successful `info_content_background_corrected` run. -/
lemma bg_ok_elim (M : Model) (ids : List ℕ) (tb bpt : ℝ)
    (h : info_content_background_corrected M ids = .ok (tb, bpt)) :
    bgLoop M ids (scoredIndices ids) 0 = .ok tb ∧ ((ids.length : ℤ) - 1) ≠ 0 ∧
      bpt = tb / (((ids.length : ℤ) - 1 : ℤ) : ℝ) := by
  rw [info_content_background_corrected] at h
  rcases heq : bgLoop M ids (scoredIndices ids) 0 with e | total
  · rw [heq] at h
    cases h
  · rw [heq] at h
    dsimp only at h
    by_cases hz : ((ids.length : ℤ) - 1) = 0
    · rw [if_pos hz] at h
      cases h
    · rw [if_neg hz] at h
      have h2 := Except.ok.inj h
      have h3 : total = tb := congrArg Prod.fst h2
      have h4 : total / (((ids.length : ℤ) - 1 : ℤ) : ℝ) = bpt := congrArg Prod.snd h2
      subst h3
      exact ⟨rfl, hz, h4.symm⟩

/-- If every probability the oracle can return lies in (0, 1], the scoring
loop never decreases its accumulator below zero. -/
lemma infoLoop_nonneg (M : Model) (ids : List ℕ)
    (hprob : ∀ t hist, 0 < M.q_prob t hist ∧ M.q_prob t hist ≤ 1) :
    ∀ (l : List ℕ) (acc tb : ℝ), 0 ≤ acc →
      infoLoop M ids l acc = .ok tb → 0 ≤ tb := by
  intro l
  induction l with
  | nil =>
    intro acc tb h0 h
    rw [infoLoop] at h
    cases h
    exact h0
  | cons i rest ih =>
    intro acc tb h0 h
    rw [infoLoop] at h
    by_cases hle : M.q_prob (ids.getD i 0) (ids.take i) ≤ 0
    · rw [if_pos hle] at h
      cases h
    · rw [if_neg hle] at h
      refine ih _ _ ?_ h
      have h1 : Real.logb 2 (M.q_prob (ids.getD i 0) (ids.take i)) ≤ 0 :=
        Real.logb_nonpos one_lt_two (le_of_lt (hprob _ _).1) (hprob _ _).2
      linarith

/-- When both loops succeed on the same index list, the corrected total
differs from the plain total by the accumulated background log-probabilities. -/
lemma loops_diff (M : Model) (ids : List ℕ) :
    ∀ (l : List ℕ) (acc acc' tb tb' : ℝ),
      infoLoop M ids l acc = .ok tb → bgLoop M ids l acc' = .ok tb' →
      tb' - tb = (acc' - acc)
        + (l.map (fun i => Real.logb 2 (M.p_bg_dist (ids.getD i 0)))).sum := by
  intro l
  induction l with
  | nil =>
    intro acc acc' tb tb' h h'
    rw [infoLoop] at h
    rw [bgLoop] at h'
    cases h
    cases h'
    simp
  | cons i rest ih =>
    intro acc acc' tb tb' h h'
    rw [infoLoop] at h
    rw [bgLoop] at h'
    by_cases hq : M.q_prob (ids.getD i 0) (ids.take i) ≤ 0
    · rw [if_pos hq] at h
      cases h
    · rw [if_neg hq] at h
      rw [if_neg hq] at h'
      by_cases hbg : M.p_bg_dist (ids.getD i 0) ≤ 0
      · rw [if_pos hbg] at h'
        cases h'
      · rw [if_neg hbg] at h'
        have hd := ih _ _ _ _ h h'
        simp only [List.map_cons, List.sum_cons]
        linarith [hd]

/-- If position k fails the probability guard and every earlier scored
position passes it, the scoring loop aborts at k with the ValueError. -/
lemma infoLoop_error_range (M : Model) (ids : List ℕ) (k : ℕ)
    (hk0 : M.q_prob (ids.getD k 0) (ids.take k) ≤ 0) :
    ∀ (n s : ℕ) (acc : ℝ), s ≤ k → k < s + n →
      (∀ j, s ≤ j → j < k → 0 < M.q_prob (ids.getD j 0) (ids.take j)) →
      infoLoop M ids (List.range' s n) acc
        = .error (.invalidProbability (M.decode (ids.getD k 0))) := by
  intro n
  induction n with
  | zero =>
    intro s acc h1 h2 _
    omega
  | succ n ih =>
    intro s acc h1 h2 hprev
    rw [List.range'_succ, infoLoop]
    rcases eq_or_lt_of_le h1 with rfl | hlt
    · rw [if_pos hk0]
    · rw [if_neg (not_le.mpr (hprev s le_rfl hlt))]
      exact ih (s + 1) _ hlt (by omega) (fun j hj1 hj2 => hprev j (by omega) hj2)

/-- If position k has a positive conditional probability but a non-positive
background probability, and every earlier scored position passes both,
the corrected loop aborts at k with the math domain error. -/
lemma bgLoop_error_range (M : Model) (ids : List ℕ) (k : ℕ)
    (hkq : 0 < M.q_prob (ids.getD k 0) (ids.take k))
    (hkbg : M.p_bg_dist (ids.getD k 0) ≤ 0) :
    ∀ (n s : ℕ) (acc : ℝ), s ≤ k → k < s + n →
      (∀ j, s ≤ j → j < k →
        0 < M.q_prob (ids.getD j 0) (ids.take j) ∧ 0 < M.p_bg_dist (ids.getD j 0)) →
      bgLoop M ids (List.range' s n) acc = .error .mathDomainError := by
  intro n
  induction n with
  | zero =>
    intro s acc h1 h2 _
    omega
  | succ n ih =>
    intro s acc h1 h2 hprev
    rw [List.range'_succ, bgLoop]
    rcases eq_or_lt_of_le h1 with rfl | hlt
    · rw [if_neg (not_le.mpr hkq), if_pos hkbg]
    · rw [if_neg (not_le.mpr (hprev s le_rfl hlt).1),
        if_neg (not_le.mpr (hprev s le_rfl hlt).2)]
      exact ih (s + 1) _ hlt (by omega) (fun j hj1 hj2 => hprev j (by omega) hj2)

lemma scored_two : scoredIndices [0, 1] = [1] := rfl

lemma scored_three : scoredIndices [0, 1, 2] = [1, 2] := rfl

/-- Concrete run of the plain accumulator on the 1/2-stub: each of the
single scored position contributes one bit. -/
lemma eval_Mhalf : info_content Mhalf [0, 1] = .ok (1, 1) := by
  have h : infoLoop Mhalf [0, 1] [1] 0 = .ok 1 := by
    rw [infoLoop, if_neg (by norm_num [Mhalf]), infoLoop]
    norm_num [Mhalf, logb_two_half]
  rw [info_content, scored_two, h]
  norm_num

/-- Concrete run of the corrected accumulator on the 1/2-stub: conditional
and background surprisal cancel. -/
lemma eval_Mhalf_bg : info_content_background_corrected Mhalf [0, 1] = .ok (0, 0) := by
  have h : bgLoop Mhalf [0, 1] [1] 0 = .ok 0 := by
    rw [bgLoop, if_neg (by norm_num [Mhalf]), if_neg (by norm_num [Mhalf]), bgLoop]
    norm_num [Mhalf, logb_two_half]
  rw [info_content_background_corrected, scored_two, h]
  norm_num

/-- Concrete run of the plain accumulator on the probability-1 stub: a fully
predictable sequence accumulates zero bits. -/
lemma eval_Mone : info_content Mone [0, 1] = .ok (0, 0) := by
  have h : infoLoop Mone [0, 1] [1] 0 = .ok 0 := by
    rw [infoLoop, if_neg (by norm_num [Mone]), infoLoop]
    norm_num [Mone]
  rw [info_content, scored_two, h]
  norm_num

/-! ### Claims -/

/-- C1: for every token sequence of length N ≥ 2 whose queried probabilities
are all positive, `info_content` queries the oracle exactly N-1 times, once
per position i = 1..N-1 with history exactly the prefix ids[0:i] (so the
history lengths are exactly 1, 2, ..., N-1 in order), and returns total_bits
equal to the sum over those positions of -log2 of the queried probability,
together with that sum divided by N-1. -/
theorem info_content_query_protocol (M : Model) (ids : List ℕ)
    (hN : 2 ≤ ids.length)
    (hpos : ∀ i, 1 ≤ i → i < ids.length → 0 < M.q_prob (ids.getD i 0) (ids.take i)) :
    oracleQueries M ids (scoredIndices ids)
        = (scoredIndices ids).map (fun i => (ids.take i, ids.getD i 0)) ∧
      (oracleQueries M ids (scoredIndices ids)).length = ids.length - 1 ∧
      (oracleQueries M ids (scoredIndices ids)).map (fun q => q.1.length)
        = List.range' 1 (ids.length - 1) ∧
      info_content M ids
        = .ok (((scoredIndices ids).map (stepBits M ids)).sum,
            ((scoredIndices ids).map (stepBits M ids)).sum / ((ids.length : ℝ) - 1)) := by
  have hmem : ∀ i ∈ scoredIndices ids, 0 < M.q_prob (ids.getD i 0) (ids.take i) := by
    intro i hi
    rw [scoredIndices, List.mem_range'_1] at hi
    exact hpos i hi.1 (by omega)
  have hq := oracleQueries_of_pos M ids (scoredIndices ids) hmem
  have hl := infoLoop_ok_of_pos M ids (scoredIndices ids) 0 hmem
  refine ⟨hq, ?_, ?_, ?_⟩
  · rw [hq, List.length_map, scoredIndices, List.length_range']
  · rw [hq, List.map_map]
    have hcongr : ∀ i ∈ scoredIndices ids,
        ((fun q : List ℕ × ℕ => q.1.length) ∘ fun i => (ids.take i, ids.getD i 0)) i
          = id i := by
      intro i hi
      rw [scoredIndices, List.mem_range'_1] at hi
      simp only [Function.comp_apply, List.length_take, id_eq]
      omega
    rw [List.map_congr_left hcongr, List.map_id, scoredIndices]
  · rw [info_content, hl]
    dsimp only
    rw [if_neg (by omega : ¬ ((ids.length : ℤ) - 1 = 0)), denom_cast]
    norm_num

/-- C1 witness: the protocol at the 1/2-stub on the length-3 sequence
[0, 1, 2]: two oracle queries are made. -/
theorem info_content_query_protocol_witness :
    (2 ≤ ([0, 1] : List ℕ).length + 1) ∧
      (oracleQueries Mhalf [0, 1, 2] (scoredIndices [0, 1, 2])).length
        = ([0, 1, 2] : List ℕ).length - 1 :=
  ⟨by norm_num,
    (info_content_query_protocol Mhalf [0, 1, 2] (by norm_num)
      (fun i _ _ => by norm_num [Mhalf])).2.1⟩

/-- C2 counterexample: on the empty token sequence (length 0 < 2),
`info_content` does not fail at all: it returns the pair (0, 0). -/
theorem no_insufficient_length_check : info_content Mhalf [] = .ok (0, 0) := by
  rw [info_content, show scoredIndices [] = [] from rfl, infoLoop]
  norm_num

/-- C2 amended: the code performs no length check and defines no
InsufficientLength error.  On a length-0 sequence `info_content` returns
(0.0, -0.0) without error (0 and -0.0 are the same real number), and on a
length-1 sequence it fails with the ZeroDivisionError raised by the final
division by len - 1 = 0, not with a dedicated InsufficientLength error. -/
theorem info_content_short_sequence (M : Model) (ids : List ℕ)
    (h : ids.length < 2) :
    (ids.length = 0 → info_content M ids = .ok (0, 0)) ∧
      (ids.length = 1 → info_content M ids = .error .zeroDivisionError) := by
  constructor
  · intro h0
    have he : ids = [] := List.length_eq_zero.mp h0
    subst he
    rw [info_content, show scoredIndices [] = [] from rfl, infoLoop]
    norm_num
  · intro h1
    have hsi : scoredIndices ids = [] := by
      rw [scoredIndices, h1]
      rfl
    rw [info_content, hsi, infoLoop]
    dsimp only
    rw [if_pos (by rw [h1]; norm_num : ((ids.length : ℤ) - 1 = 0))]

/-- C2 witness: the amended behaviour at the concrete length-1 sequence
[7]. -/
theorem info_content_short_sequence_witness :
    (([7] : List ℕ).length < 2) ∧ info_content Mhalf [7] = .error .zeroDivisionError :=
  ⟨by norm_num, (info_content_short_sequence Mhalf [7] (by norm_num)).2 rfl⟩

/-- C3: on every successful run over a sequence of length N ≥ 2 the second
component equals the first divided by N-1, and on a length-2 sequence
exactly one oracle query is made and bits_per_token equals total_bits. -/
theorem bits_per_token_ratio (M : Model) (ids : List ℕ) (tb bpt : ℝ)
    (hN : 2 ≤ ids.length) (h : info_content M ids = .ok (tb, bpt)) :
    bpt = tb / ((ids.length : ℝ) - 1) ∧
      (ids.length = 2 →
        oracleQueries M ids (scoredIndices ids) = [(ids.take 1, ids.getD 1 0)] ∧
          bpt = tb) := by
  obtain ⟨hloop, hz, hbpt⟩ := info_content_ok_elim M ids tb bpt h
  refine ⟨by rw [hbpt, denom_cast], ?_⟩
  intro h2
  constructor
  · have hsi : scoredIndices ids = [1] := by
      rw [scoredIndices, h2]
      rfl
    rw [hsi, oracleQueries]
    by_cases hq : M.q_prob (ids.getD 1 0) (ids.take 1) ≤ 0
    · rw [if_pos hq]
    · rw [if_neg hq, oracleQueries]
  · rw [hbpt, h2]
    norm_num

/-- C3 witness: the ratio at the 1/2-stub on [0, 1], where total_bits and
bits_per_token are both 1. -/
theorem bits_per_token_ratio_witness :
    (2 ≤ ([0, 1] : List ℕ).length) ∧
      (1 : ℝ) = 1 / ((([0, 1] : List ℕ).length : ℝ) - 1) :=
  ⟨by norm_num, (bits_per_token_ratio Mhalf [0, 1] 1 1 (by norm_num) eval_Mhalf).1⟩

/-- C4: if the first failing scored position k has oracle probability ≤ 0
(every earlier scored position passing the guard), `info_content` aborts
with the ValueError carrying the offending token's decoded form, returning
no partial sum. -/
theorem invalid_probability_aborts (M : Model) (ids : List ℕ) (k : ℕ)
    (hk1 : 1 ≤ k) (hk : k < ids.length)
    (hk0 : M.q_prob (ids.getD k 0) (ids.take k) ≤ 0)
    (hprev : ∀ j, 1 ≤ j → j < k → 0 < M.q_prob (ids.getD j 0) (ids.take j)) :
    info_content M ids = .error (.invalidProbability (M.decode (ids.getD k 0))) := by
  have h := infoLoop_error_range M ids k hk0 (ids.length - 1) 1 0 hk1 (by omega) hprev
  rw [info_content, scoredIndices, h]

/-- C4 witness: a stub oracle returning probability 0 makes `info_content`
fail on [0, 1] with the invalid-probability error for token 1. -/
theorem invalid_probability_aborts_witness :
    (Mzero.q_prob (List.getD [0, 1] 1 0) (List.take 1 [0, 1]) ≤ 0) ∧
      info_content Mzero [0, 1]
        = .error (.invalidProbability (Mzero.decode (List.getD [0, 1] 1 0))) :=
  ⟨by norm_num [Mzero],
    invalid_probability_aborts Mzero [0, 1] 1 (by norm_num) (by norm_num)
      (by norm_num [Mzero]) (fun j hj1 hj2 => by omega)⟩

/-- C5: when every probability the oracle can return lies in (0, 1], any
successful run of `info_content` returns a non-negative total_bits. -/
theorem total_bits_nonneg (M : Model) (ids : List ℕ) (tb bpt : ℝ)
    (hprob : ∀ t hist, 0 < M.q_prob t hist ∧ M.q_prob t hist ≤ 1)
    (h : info_content M ids = .ok (tb, bpt)) :
    0 ≤ tb := by
  obtain ⟨hloop, -, -⟩ := info_content_ok_elim M ids tb bpt h
  exact infoLoop_nonneg M ids hprob (scoredIndices ids) 0 tb le_rfl hloop

/-- C5 witness: the 1/2-stub keeps all probabilities in (0, 1] and the run
on [0, 1] returns the non-negative total 1. -/
theorem total_bits_nonneg_witness :
    (∀ t hist, 0 < Mhalf.q_prob t hist ∧ Mhalf.q_prob t hist ≤ 1) ∧ (0 : ℝ) ≤ 1 :=
  ⟨fun t hist => by norm_num [Mhalf],
    total_bits_nonneg Mhalf [0, 1] 1 1 (fun t hist => by norm_num [Mhalf]) eval_Mhalf⟩

/-- C6: whenever both accumulators succeed on a sequence of length N ≥ 2
against the same oracle, the corrected total minus the plain total equals
the sum over the scored positions of log2 of the background probability of
the token at that position. -/
theorem background_correction_additive (M : Model) (ids : List ℕ)
    (tb bpt tb' bpt' : ℝ) (hN : 2 ≤ ids.length)
    (h : info_content M ids = .ok (tb, bpt))
    (h' : info_content_background_corrected M ids = .ok (tb', bpt')) :
    tb' - tb
      = ((scoredIndices ids).map
          (fun i => Real.logb 2 (M.p_bg_dist (ids.getD i 0)))).sum := by
  obtain ⟨hloop, -, -⟩ := info_content_ok_elim M ids tb bpt h
  obtain ⟨hloop', -, -⟩ := bg_ok_elim M ids tb' bpt' h'
  have hd := loops_diff M ids (scoredIndices ids) 0 0 tb tb' hloop hloop'
  simpa using hd

/-- C6 witness: on the 1/2-stub over [0, 1] the plain run gives 1, the
corrected run gives 0, and the background sum is -1. -/
theorem background_correction_additive_witness :
    (2 ≤ ([0, 1] : List ℕ).length) ∧
      (0 : ℝ) - 1 = ((scoredIndices [0, 1]).map
        (fun i => Real.logb 2 (Mhalf.p_bg_dist (List.getD [0, 1] i 0)))).sum :=
  ⟨by norm_num,
    background_correction_additive Mhalf [0, 1] 1 1 0 0 (by norm_num)
      eval_Mhalf eval_Mhalf_bg⟩

/-- C7: with the deterministic stub oracle that always returns the uniform
distribution over a vocabulary of size 4 (every probability 1/4), scoring
the sequence [0, 1, 2] returns total_bits = 4 and bits_per_token = 2. -/
theorem uniform_stub_scenario : info_content Muniform4 [0, 1, 2] = .ok (4, 2) := by
  have h1 : infoLoop Muniform4 [0, 1, 2] [1, 2] 0 = .ok 4 := by
    rw [infoLoop, if_neg (by norm_num [Muniform4]),
      infoLoop, if_neg (by norm_num [Muniform4]), infoLoop]
    norm_num [Muniform4, logb_two_quarter]
  rw [info_content, scored_three, h1]
  norm_num

/-- C8: on any successful run over a sequence of length N ≥ 2, the reporting
layer's reconstruction total_bits / bits_per_token equals N-1 exactly when
bits_per_token is non-zero, and raises ZeroDivisionError when
bits_per_token is zero. -/
theorem token_count_reconstruction (M : Model) (ids : List ℕ) (tb bpt : ℝ)
    (hN : 2 ≤ ids.length) (h : info_content M ids = .ok (tb, bpt)) :
    (bpt ≠ 0 → reconstructedTokenCount tb bpt = .ok ((ids.length : ℝ) - 1)) ∧
      (bpt = 0 → reconstructedTokenCount tb bpt = .error .zeroDivisionError) := by
  obtain ⟨-, hz, hbpt⟩ := info_content_ok_elim M ids tb bpt h
  constructor
  · intro hb
    have htb : tb ≠ 0 := by
      intro h0
      apply hb
      rw [hbpt, h0, zero_div]
    rw [reconstructedTokenCount, if_neg hb, hbpt, denom_cast, div_div_eq_mul_div,
      mul_comm tb ((ids.length : ℝ) - 1), mul_div_assoc, div_self htb, mul_one]
  · intro hb
    rw [reconstructedTokenCount, if_pos hb]

/-- C8 witness: reconstruction succeeds with value 1 on the run over [0, 1]
with bits_per_token 1, and raises ZeroDivisionError when a run over [0, 1]
with the probability-1 stub yields bits_per_token 0. -/
theorem token_count_reconstruction_witness :
    reconstructedTokenCount 1 1 = .ok ((([0, 1] : List ℕ).length : ℝ) - 1) ∧
      reconstructedTokenCount 0 0 = .error .zeroDivisionError :=
  ⟨(token_count_reconstruction Mhalf [0, 1] 1 1 (by norm_num) eval_Mhalf).1 one_ne_zero,
    (token_count_reconstruction Mone [0, 1] 0 0 (by norm_num) eval_Mone).2 rfl⟩

/-- C9: on the empty token sequence `info_content` performs no oracle query
and raises no error: the loop body never runs, total_bits stays 0, and the
division by len - 1 = -1 returns -0.0, i.e. the real number 0, so the result
is the pair (0, 0). -/
theorem empty_sequence_returns_zero (M : Model) :
    oracleQueries M [] (scoredIndices []) = [] ∧ info_content M [] = .ok (0, 0) := by
  constructor
  · rw [show scoredIndices [] = [] from rfl, oracleQueries]
  · rw [info_content, show scoredIndices [] = [] from rfl, infoLoop]
    norm_num

/-- C10: the corrected accumulator never validates the background
probability: if the first troublesome scored position k has a strictly
positive conditional probability but a non-positive background probability
(all earlier positions healthy on both counts), the unguarded
`math.log2(p_background)` raises the math domain error, not the
invalid-probability ValueError. -/
theorem background_probability_unguarded (M : Model) (ids : List ℕ) (k : ℕ)
    (hk1 : 1 ≤ k) (hk : k < ids.length)
    (hq : 0 < M.q_prob (ids.getD k 0) (ids.take k))
    (hbg : M.p_bg_dist (ids.getD k 0) ≤ 0)
    (hprev : ∀ j, 1 ≤ j → j < k →
      0 < M.q_prob (ids.getD j 0) (ids.take j) ∧ 0 < M.p_bg_dist (ids.getD j 0)) :
    info_content_background_corrected M ids = .error .mathDomainError := by
  have h := bgLoop_error_range M ids k hq hbg (ids.length - 1) 1 0 hk1 (by omega) hprev
  rw [info_content_background_corrected, scoredIndices, h]

/-- C10 witness: a healthy 1/2 conditional oracle with an all-zero background
distribution makes the corrected accumulator fail on [0, 1] with the math
domain error. -/
theorem background_probability_unguarded_witness :
    (0 < Mbgzero.q_prob (List.getD [0, 1] 1 0) (List.take 1 [0, 1])) ∧
      (Mbgzero.p_bg_dist (List.getD [0, 1] 1 0) ≤ 0) ∧
      info_content_background_corrected Mbgzero [0, 1] = .error .mathDomainError :=
  ⟨by norm_num [Mbgzero], by norm_num [Mbgzero],
    background_probability_unguarded Mbgzero [0, 1] 1 (by norm_num) (by norm_num)
      (by norm_num [Mbgzero]) (by norm_num [Mbgzero]) (fun j hj1 hj2 => by omega)⟩

end Entropy
